import Mathlib

/-
  Verification of the runtime class model of the GoVM repository
  (package `heap`, files `class.go` and `cp_methodref.go`).

  Embedding choices:
  * A loaded class graph is a list of `ClassData` records; a class identity
    (a Go `*Class` pointer) is its index (`ClassId`) in that list, so Go
    pointer equality is index equality.
  * A method identity (a Go `*Method` pointer) is the pair
    (owning class id, index in the owning class's method table).
  * Loops over superclass / interface chains are unbounded in Go (the loader
    guarantees an acyclic linked hierarchy); they are embedded with an
    explicit fuel parameter, instantiated at `fuelOf g = g.length + 2`,
    which is enough steps for any terminating chain walk.
  * A Go panic is an `Except.error`; a function that mutates `self` is
    embedded by returning the updated value next to the `Except` result.
-/

namespace heap

/- Access flag constants (standard class file access masks used by the
   `heap` package; the flag file itself is outside the two embedded files). -/
def ACC_PUBLIC : Nat := 0x0001
def ACC_STATIC : Nat := 0x0008
def ACC_FINAL : Nat := 0x0010
def ACC_SUPER : Nat := 0x0020
def ACC_INTERFACE : Nat := 0x0200
def ACC_ABSTRACT : Nat := 0x0400

abbrev ClassId := Nat
abbrev MethodId := ClassId × Nat
abbrev Obj := Nat

/-- One entry of a class's method table (`Method`: name, descriptor and
access flags; the code body is irrelevant to linkage). -/
structure MethodData where
  accessFlags : Nat
  name : String
  descriptor : String
  deriving Repr, DecidableEq

/-- One entry of a class's field table (`Field`: name, descriptor, access
flags and the storage slot index assigned at link time). -/
structure FieldData where
  accessFlags : Nat
  name : String
  descriptor : String
  slotId : Nat
  deriving Repr, DecidableEq

/-- The `Class` struct of `class.go`: flags, names, resolved superclass and
interface links (as class ids), member tables, static storage and
bookkeeping fields. -/
structure ClassData where
  accessFlags : Nat
  name : String
  superClassName : String
  interfaceNames : List String
  superClass : Option ClassId
  interfaces : List ClassId
  methods : List MethodData
  fields : List FieldData
  instanceSlotCount : Nat
  staticSlotCount : Nat
  staticVars : List (Option Obj)
  initStarted : Bool
  sourceFile : String
  deriving Repr, DecidableEq

/-- The method area: every loaded class, addressed by `ClassId`. -/
abbrev Graph := List ClassData

def classAt (g : Graph) (c : ClassId) : Option ClassData := g[c]?

def methodAt (g : Graph) (m : MethodId) : Option MethodData :=
  match classAt g m.1 with
  | some cd => cd.methods[m.2]?
  | none => none

/-- The identities of the methods of class `c`'s own method table, in table
order. -/
def methodIds (g : Graph) (c : ClassId) : List MethodId :=
  match classAt g c with
  | some cd => (List.range cd.methods.length).map fun i => (c, i)
  | none => []

/-- Fuel that dominates every terminating superclass / interface chain walk
in `g`. -/
def fuelOf (g : Graph) : Nat := g.length + 2

def MethodData.IsStatic (m : MethodData) : Bool :=
  (m.accessFlags &&& ACC_STATIC) != 0

def FieldData.IsStatic (f : FieldData) : Bool :=
  (f.accessFlags &&& ACC_STATIC) != 0

/-- `method.name == name && method.descriptor == descriptor`, the match
test of every lookup loop, read through a method identity. -/
def matchesND (g : Graph) (n d : String) (m : MethodId) : Bool :=
  match methodAt g m with
  | some md => md.name == n && md.descriptor == d
  | none => false

def mIsStatic (g : Graph) (m : MethodId) : Bool :=
  match methodAt g m with
  | some md => md.IsStatic
  | none => false

/- ----------------------------------------------------------------
   class.go: predicates and package names
   ---------------------------------------------------------------- -/

def ClassData.IsPublic (cd : ClassData) : Bool :=
  (cd.accessFlags &&& ACC_PUBLIC) != 0

def ClassData.IsInterface (cd : ClassData) : Bool :=
  (cd.accessFlags &&& ACC_INTERFACE) != 0

/-- `strings.LastIndex(s, "/")` on the character list of a name. -/
def lastIndexOf (ch : Char) : List Char → Option Nat
  | [] => none
  | x :: xs =>
    match lastIndexOf ch xs with
    | some i => some (i + 1)
    | none => if x == ch then some 0 else none

/-- `GetPackageName` of `class.go`: the name up to (excluding) the last
slash, or the empty string when the name has no slash. -/
def pkgOfName (n : String) : String :=
  match lastIndexOf '/' n.toList with
  | some i => String.mk (n.toList.take i)
  | none => ""

def ClassData.GetPackageName (cd : ClassData) : String := pkgOfName cd.name

/-- `isAccessibleTo` of `class.go`: public or same package. -/
def ClassData.isAccessibleTo (self other : ClassData) : Bool :=
  self.IsPublic || self.GetPackageName == other.GetPackageName

def isInterfaceAt (g : Graph) (c : ClassId) : Bool :=
  match classAt g c with
  | some cd => cd.IsInterface
  | none => false

/- ----------------------------------------------------------------
   class.go: the superclass chain walk of IsSubClassOf
   ---------------------------------------------------------------- -/

/-- One step up the hierarchy: `c.superClass`. -/
def superStep (g : Graph) (c : ClassId) : Option ClassId :=
  match classAt g c with
  | some cd => cd.superClass
  | none => none

def ostep (g : Graph) (oc : Option ClassId) : Option ClassId :=
  match oc with
  | some c => superStep g c
  | none => none

/-- `k` steps up the hierarchy. -/
def sIter (g : Graph) : Nat → Option ClassId → Option ClassId
  | 0, oc => oc
  | k + 1, oc => sIter g k (ostep g oc)

/-- The loop body of `IsSubClassOf`: `for c := start; c != nil; c = c.superClass
{ if c == other { return true } }; return false`, bounded by fuel. -/
def isSubLoop (g : Graph) : Nat → Option ClassId → ClassId → Bool
  | 0, _, _ => false
  | _ + 1, none, _ => false
  | fuel + 1, some c, d => if c = d then true else isSubLoop g fuel (superStep g c) d

/-- `IsSubClassOf` of `class.go`: the walk starts at `self.superClass`
(strict ancestors only). -/
def IsSubClassOf (g : Graph) (c d : ClassId) : Bool :=
  isSubLoop g (fuelOf g) (superStep g c) d

/-- `IsSuperClassOf` of `class.go`, the mirror relation. -/
def IsSuperClassOf (g : Graph) (c d : ClassId) : Bool :=
  IsSubClassOf g d c

/-- Specification-side relation: `d` appears in the strict superclass chain
of `c` (some positive number of `superClass` steps reaches `d`). -/
def StrictAncestor (g : Graph) (c d : ClassId) : Prop :=
  ∃ k, 1 ≤ k ∧ sIter g k (some c) = some d

/-- The superclass chain of `c` reaches the root (`nil`) within the fuel
bound — the acyclic-hierarchy condition the class loader guarantees. -/
def ChainTerminates (g : Graph) (c : ClassId) : Prop :=
  ∃ t, t ≤ fuelOf g ∧ sIter g t (some c) = none

/- ----------------------------------------------------------------
   class.go: member lookups
   ---------------------------------------------------------------- -/

/-- `getMethod` of `class.go`: walk `self` and then each superclass, and in
each class take the first method whose static-ness, name and descriptor
match. -/
def getMethod (g : Graph) (n d : String) (st : Bool) : Nat → ClassId → Option MethodId
  | 0, _ => none
  | fuel + 1, c =>
    match classAt g c with
    | none => none
    | some cd =>
      match (methodIds g c).find? (fun m => (mIsStatic g m == st) && matchesND g n d m) with
      | some m => some m
      | none =>
        match cd.superClass with
        | some s => getMethod g n d st fuel s
        | none => none

/-- `GetInstanceMethod` of `class.go`. -/
def GetInstanceMethod (g : Graph) (c : ClassId) (n d : String) : Option MethodId :=
  getMethod g n d false (fuelOf g) c

/-- `getStaticMethod` of `class.go`: scans only `self.methods`, no
superclass walk. -/
def getStaticMethod (g : Graph) (c : ClassId) (n d : String) : Option MethodId :=
  (methodIds g c).find? (fun m => mIsStatic g m && matchesND g n d m)

/-- `GetMainMethod` of `class.go`. -/
def GetMainMethod (g : Graph) (c : ClassId) : Option MethodId :=
  getStaticMethod g c "main" "([Ljava/lang/String;)V"

/-- `GetClinitMethod` of `class.go`. -/
def GetClinitMethod (g : Graph) (c : ClassId) : Option MethodId :=
  getStaticMethod g c "<clinit>" "()V"

/-- The field match test of `getField`. -/
def fieldMatches (st : Bool) (n d : String) (f : FieldData) : Bool :=
  (f.IsStatic == st) && (f.name == n) && (f.descriptor == d)

/-- `getField` of `class.go`: walk `self` and then each superclass, first
match on static-ness, name and descriptor. -/
def getField (g : Graph) (n d : String) (st : Bool) : Nat → ClassId → Option FieldData
  | 0, _ => none
  | fuel + 1, c =>
    match classAt g c with
    | none => none
    | some cd =>
      match cd.fields.find? (fieldMatches st n d) with
      | some f => some f
      | none =>
        match cd.superClass with
        | some s => getField g n d st fuel s
        | none => none

def staticVarsOf (g : Graph) (c : ClassId) : List (Option Obj) :=
  match classAt g c with
  | some cd => cd.staticVars
  | none => []

/-- `Slots.GetRef` on the reference slots (reads the slot, `none` standing
for a nil object reference). -/
def slotGetRef (s : List (Option Obj)) (i : Nat) : Option Obj :=
  s.getD i none

/-- `GetRefVar` of `class.go`. The `none` result is the nil-pointer
dereference of `field.slotId` when `getField` found nothing. -/
def GetRefVar (g : Graph) (c : ClassId) (n d : String) : Option (Option Obj) :=
  match getField g n d true (fuelOf g) c with
  | none => none
  | some f => some (slotGetRef (staticVarsOf g c) f.slotId)

/-- `SetRefVar` of `class.go`: writes `self.staticVars` at the located
field's slot. The `none` result is the nil-pointer dereference on a missing
field. -/
def SetRefVar (g : Graph) (c : ClassId) (n d : String) (r : Option Obj) : Option Graph :=
  match classAt g c, getField g n d true (fuelOf g) c with
  | some cd, some f =>
    some (g.set c { cd with staticVars := cd.staticVars.set f.slotId r })
  | _, _ => none

/- ----------------------------------------------------------------
   cp_methodref.go: method reference resolution
   ---------------------------------------------------------------- -/

/-- `LookupMethodInClass` of `cp_methodref.go`: scan the method table of
`class` and of each superclass in turn. -/
def LookupMethodInClass (g : Graph) (n d : String) : Nat → ClassId → Option MethodId
  | 0, _ => none
  | fuel + 1, c =>
    match classAt g c with
    | none => none
    | some cd =>
      match (methodIds g c).find? (matchesND g n d) with
      | some m => some m
      | none =>
        match cd.superClass with
        | some s => LookupMethodInClass g n d fuel s
        | none => none

/-- One list level of `lookupMethodInInterface`: scan each interface's own
method table, then descend (via `rec`, the next fuel level) into its
super-interfaces, then move to the next interface of the list. -/
def lmiiStep (g : Graph) (n d : String) (rec : List ClassId → Option MethodId) :
    List ClassId → Option MethodId
  | [] => none
  | i :: rest =>
    match classAt g i with
    | none => lmiiStep g n d rec rest
    | some cd =>
      match (methodIds g i).find? (matchesND g n d) with
      | some m => some m
      | none =>
        match rec cd.interfaces with
        | some m => some m
        | none => lmiiStep g n d rec rest

/-- `lookupMethodInInterface` of `cp_methodref.go`, with fuel bounding the
descent depth into super-interfaces. -/
def lookupMethodInInterface (g : Graph) (n d : String) : Nat → List ClassId → Option MethodId
  | 0, _ => none
  | fuel + 1, l => lmiiStep g n d (lookupMethodInInterface g n d fuel) l

def ifacesOf (g : Graph) (c : ClassId) : List ClassId :=
  match classAt g c with
  | some cd => cd.interfaces
  | none => []

/-- `lookupMethod` of `cp_methodref.go`: the class chain first, then the
class's direct interfaces. -/
def lookupMethod (g : Graph) (n d : String) (fuel : Nat) (c : ClassId) : Option MethodId :=
  match LookupMethodInClass g n d fuel c with
  | some m => some m
  | none => lookupMethodInInterface g n d fuel (ifacesOf g c)

/-- `MethodRef` of `cp_methodref.go` with the `MemberRef`/`SymRef` data it
embeds: the accessing class `d` (the class owning the constant pool, via
`self.cp.class`), the target class name, the member name and descriptor,
and the cached resolved method (nil until resolved). -/
structure MethodRef where
  cpClass : ClassId
  className : String
  name : String
  descriptor : String
  method : Option MethodId
  deriving Repr, DecidableEq

/-- The error conditions a resolution can panic with. -/
inductive LinkErr where
  | classNotFound
  | incompatibleClassChange
  | noSuchMethod
  | illegalAccess
  deriving Repr, DecidableEq

/-- Modelled from the spec: `SymRef.ResolvedClass` / `ClassLoader.LoadClass`
are not under `src/`. Per the spec, `LoadClass(name) -> Class` is an
idempotent name-to-class mapping over the loader's registry, failing with a
class-not-found condition when no definition exists; the registry holds one
class per fully-qualified name. -/
def findClassByName (g : Graph) (n : String) : Option ClassId :=
  g.findIdx? (fun cd => cd.name == n)

def ownerPackage (g : Graph) (m : MethodId) : String :=
  match classAt g m.1 with
  | some cd => cd.GetPackageName
  | none => ""

/-- Modelled from the spec: `ClassMember.isAccessibleTo` (the member-level
access check `method.isAccessibleTo(d)`) is not under `src/`. Per the spec,
public members are always accessible and non-public members require the
accessing class `d` and the member's owning class to share a package. -/
def methodIsAccessibleTo (g : Graph) (m : MethodId) (dcls : ClassId) : Bool :=
  match methodAt g m, classAt g dcls with
  | some md, some dd =>
    ((md.accessFlags &&& ACC_PUBLIC) != 0) || ownerPackage g m == dd.GetPackageName
  | _, _ => false

/-- `resolveMethodRef` of `cp_methodref.go`, statement by statement: resolve
the target class `c`, panic if it is an interface, look the method up, panic
if absent, panic if inaccessible to the accessing class `d`, and only then
store the method on the reference. A panic leaves `self` as it was. -/
def resolveMethodRef (g : Graph) (ref : MethodRef) : Except LinkErr Unit × MethodRef :=
  match findClassByName g ref.className with
  | none => (Except.error LinkErr.classNotFound, ref)
  | some c =>
    if isInterfaceAt g c then (Except.error LinkErr.incompatibleClassChange, ref)
    else
      match lookupMethod g ref.name ref.descriptor (fuelOf g) c with
      | none => (Except.error LinkErr.noSuchMethod, ref)
      | some m =>
        if methodIsAccessibleTo g m ref.cpClass then
          (Except.ok (), { ref with method := some m })
        else (Except.error LinkErr.illegalAccess, ref)

/-- `ResolvedMethod` of `cp_methodref.go`: resolve on first use, then return
the cached `self.method`. -/
def ResolvedMethod (g : Graph) (ref : MethodRef) :
    Except LinkErr (Option MethodId) × MethodRef :=
  match ref.method with
  | some _ => (Except.ok ref.method, ref)
  | none =>
    match resolveMethodRef g ref with
    | (Except.ok _, r) => (Except.ok r.method, r)
    | (Except.error e, r) => (Except.error e, r)

/-- Resolving the `i`-th reference of a pool of method references: the Go
mutation of `pool[i]` through its pointer, a panic unwinding past the pool. -/
def poolResolveAt (g : Graph) (pool : List MethodRef) (i : Nat) :
    Except LinkErr Unit × List MethodRef :=
  match pool[i]? with
  | none => (Except.ok (), pool)
  | some ref =>
    match resolveMethodRef g ref with
    | (e, r) => (e, pool.set i r)

/- ----------------------------------------------------------------
   Specification-side search orders
   ---------------------------------------------------------------- -/

/-- The method identities seen by a walk of `c` and its superclass chain,
in walk order. -/
def classChainMethods (g : Graph) : Nat → ClassId → List MethodId
  | 0, _ => []
  | fuel + 1, c =>
    match classAt g c with
    | none => []
    | some cd =>
      methodIds g c ++
        (match cd.superClass with
         | some s => classChainMethods g fuel s
         | none => [])

/-- One list level of the depth-first interface traversal order: each
interface's own methods, then its super-interfaces (via `rec`), then the
rest of the list. -/
def dfsStep (g : Graph) (rec : List ClassId → List MethodId) :
    List ClassId → List MethodId
  | [] => []
  | i :: rest =>
    match classAt g i with
    | none => dfsStep g rec rest
    | some cd => methodIds g i ++ rec cd.interfaces ++ dfsStep g rec rest

/-- The method identities seen by the depth-first interface traversal, in
traversal order. -/
def ifaceDFSMethods (g : Graph) : Nat → List ClassId → List MethodId
  | 0, _ => []
  | fuel + 1, l => dfsStep g (ifaceDFSMethods g fuel) l

/-- The complete search order of non-interface method resolution: the class
chain of `c`, then the depth-first traversal of `c`'s direct interfaces. -/
def methodSearchOrder (g : Graph) (fuel : Nat) (c : ClassId) : List MethodId :=
  classChainMethods g fuel c ++ ifaceDFSMethods g fuel (ifacesOf g c)

/-- The fields seen by a walk of `c` and its superclass chain, in walk
order. -/
def chainFields (g : Graph) : Nat → ClassId → List FieldData
  | 0, _ => []
  | fuel + 1, c =>
    match classAt g c with
    | none => []
    | some cd =>
      cd.fields ++
        (match cd.superClass with
         | some s => chainFields g fuel s
         | none => [])

/- ----------------------------------------------------------------
   Concrete loaded-class fixtures (used by the witness theorems)
   ---------------------------------------------------------------- -/

/-- A blank class record, the base of the concrete fixtures. -/
def cd0 : ClassData :=
  { accessFlags := 0, name := "", superClassName := "", interfaceNames := [],
    superClass := none, interfaces := [], methods := [], fields := [],
    instanceSlotCount := 0, staticSlotCount := 0, staticVars := [],
    initStarted := false, sourceFile := "Unknown" }

def clsA : ClassData := { cd0 with name := "A" }
def clsB : ClassData := { cd0 with name := "B", superClass := some 0 }
/-- `B extends A`, `A` the root. -/
def gAB : Graph := [clsA, clsB]

def mF : MethodData := { accessFlags := ACC_PUBLIC, name := "f", descriptor := "()V" }
def clsC : ClassData := { cd0 with accessFlags := ACC_PUBLIC, name := "C", methods := [mF] }
def clsD : ClassData := { cd0 with name := "D" }
/-- A public class `C` with a public method `f()V`, and an accessing class `D`. -/
def gCD : Graph := [clsC, clsD]
def refF : MethodRef :=
  { cpClass := 1, className := "C", name := "f", descriptor := "()V", method := none }
def refFres : MethodRef := { refF with method := some (0, 0) }
def refAbsent : MethodRef :=
  { cpClass := 1, className := "C", name := "absent", descriptor := "()V", method := none }

def mG : MethodData := { accessFlags := ACC_PUBLIC, name := "g", descriptor := "()V" }
def clsJ : ClassData := { cd0 with accessFlags := ACC_INTERFACE, name := "J", methods := [mG] }
def clsI : ClassData := { cd0 with accessFlags := ACC_INTERFACE, name := "I", interfaces := [2] }
def clsK : ClassData := { cd0 with accessFlags := ACC_PUBLIC, name := "K", interfaces := [1] }
/-- Class `K` implementing interface `I`, whose super-interface `J` declares
`g()V`. -/
def gKIJ : Graph := [clsK, clsI, clsJ]
def refNope : MethodRef :=
  { cpClass := 0, className := "K", name := "nope", descriptor := "()V", method := none }

def clsIF : ClassData :=
  { cd0 with accessFlags := ACC_PUBLIC + ACC_INTERFACE, name := "IF", methods := [mF] }
/-- An interface `IF` that does declare `f()V`, and an accessing class `D3`. -/
def gIF : Graph := [clsIF, { cd0 with name := "D3" }]
def refIF : MethodRef :=
  { cpClass := 1, className := "IF", name := "f", descriptor := "()V", method := none }

def fX : FieldData := { accessFlags := ACC_STATIC, name := "x", descriptor := "I", slotId := 0 }
def clsSup : ClassData := { cd0 with name := "Sup", fields := [fX], staticVars := [some 5] }
def clsSub : ClassData := { cd0 with name := "Sub", superClass := some 0, staticVars := [some 9] }
/-- `Sub extends Sup`; the static field `x` lives on the ancestor `Sup`. -/
def gSS : Graph := [clsSup, clsSub]

def mMain : MethodData :=
  { accessFlags := ACC_PUBLIC + ACC_STATIC, name := "main", descriptor := "([Ljava/lang/String;)V" }
def clsBase : ClassData := { cd0 with name := "Base", methods := [mMain] }
def clsDer : ClassData := { cd0 with name := "Der", superClass := some 0 }
/-- `Der extends Base`; only the ancestor declares `static main`. -/
def gMain : Graph := [clsBase, clsDer]

/- ----------------------------------------------------------------
   Helper lemmas
   ---------------------------------------------------------------- -/

lemma sIter_none (g : Graph) : ∀ k, sIter g k none = none := by
  intro k
  induction k with
  | zero => rfl
  | succ k ih => exact ih

lemma sIter_add (g : Graph) (a : Nat) : ∀ b oc, sIter g (a + b) oc = sIter g a (sIter g b oc) := by
  intro b
  induction b with
  | zero => intro oc; rfl
  | succ b ih => intro oc; exact ih (ostep g oc)

lemma isSubLoop_iff (g : Graph) :
    ∀ (fuel : Nat) (oc : Option ClassId) (d : ClassId),
      isSubLoop g fuel oc d = true ↔ ∃ j, j < fuel ∧ sIter g j oc = some d := by
  intro fuel
  induction fuel with
  | zero => intro oc d; simp [isSubLoop]
  | succ fuel ih =>
    intro oc d
    cases oc with
    | none => simp [isSubLoop, sIter_none]
    | some c =>
      by_cases hcd : c = d
      · subst hcd
        have hl : isSubLoop g (fuel + 1) (some c) c = true := by simp [isSubLoop]
        rw [hl]
        simp only [true_iff]
        exact ⟨0, Nat.succ_pos _, rfl⟩
      · have hstep : isSubLoop g (fuel + 1) (some c) d = isSubLoop g fuel (superStep g c) d := by
          simp [isSubLoop, hcd]
        rw [hstep, ih]
        constructor
        · rintro ⟨j, hj, hs⟩
          exact ⟨j + 1, by omega, hs⟩
        · rintro ⟨j, hj, hs⟩
          cases j with
          | zero => exact absurd (Option.some.inj hs) hcd
          | succ j => exact ⟨j, by omega, hs⟩

lemma listSetSelf {α : Type} : ∀ (l : List α) (i : Nat) (a : α), l[i]? = some a → l.set i a = l := by
  intro l
  induction l with
  | nil => intro i a h; simp at h
  | cons x xs ih =>
    intro i a h
    cases i with
    | zero => simp at h; simp [List.set, h]
    | succ j => simp at h; simp [List.set, ih j a h]

lemma LookupMethodInClass_eq (g : Graph) (n d : String) :
    ∀ (fuel : Nat) (c : ClassId),
      LookupMethodInClass g n d fuel c = (classChainMethods g fuel c).find? (matchesND g n d) := by
  intro fuel
  induction fuel with
  | zero => intro c; rfl
  | succ fuel ih =>
    intro c
    cases hg : classAt g c with
    | none => simp [LookupMethodInClass, classChainMethods, hg]
    | some cd =>
      simp only [LookupMethodInClass, classChainMethods, hg, List.find?_append]
      cases hf : (methodIds g c).find? (matchesND g n d) with
      | some m => simp [Option.or]
      | none =>
        cases hsc : cd.superClass with
        | some s => simp [ih s]
        | none => simp

lemma getMethod_eq (g : Graph) (n d : String) (st : Bool) :
    ∀ (fuel : Nat) (c : ClassId),
      getMethod g n d st fuel c =
        (classChainMethods g fuel c).find? (fun m => (mIsStatic g m == st) && matchesND g n d m) := by
  intro fuel
  induction fuel with
  | zero => intro c; rfl
  | succ fuel ih =>
    intro c
    cases hg : classAt g c with
    | none => simp [getMethod, classChainMethods, hg]
    | some cd =>
      simp only [getMethod, classChainMethods, hg, List.find?_append]
      cases hf : (methodIds g c).find? (fun m => (mIsStatic g m == st) && matchesND g n d m) with
      | some m => simp [Option.or]
      | none =>
        cases hsc : cd.superClass with
        | some s => simp [ih s]
        | none => simp

lemma getField_eq (g : Graph) (n d : String) (st : Bool) :
    ∀ (fuel : Nat) (c : ClassId),
      getField g n d st fuel c = (chainFields g fuel c).find? (fieldMatches st n d) := by
  intro fuel
  induction fuel with
  | zero => intro c; rfl
  | succ fuel ih =>
    intro c
    cases hg : classAt g c with
    | none => simp [getField, chainFields, hg]
    | some cd =>
      simp only [getField, chainFields, hg, List.find?_append]
      cases hf : cd.fields.find? (fieldMatches st n d) with
      | some f => simp [Option.or]
      | none =>
        cases hsc : cd.superClass with
        | some s => simp [ih s]
        | none => simp

lemma lmiiStep_eq (g : Graph) (n d : String) (rec : List ClassId → Option MethodId)
    (recL : List ClassId → List MethodId)
    (hrec : ∀ l, rec l = (recL l).find? (matchesND g n d)) :
    ∀ l, lmiiStep g n d rec l = (dfsStep g recL l).find? (matchesND g n d) := by
  intro l
  induction l with
  | nil => rfl
  | cons i rest ih =>
    cases hg : classAt g i with
    | none => simp [lmiiStep, dfsStep, hg, ih]
    | some cd =>
      simp only [lmiiStep, dfsStep, hg, List.find?_append]
      cases hf : (methodIds g i).find? (matchesND g n d) with
      | some m => simp [Option.or]
      | none =>
        rw [hrec cd.interfaces]
        cases hr : (recL cd.interfaces).find? (matchesND g n d) with
        | some m => simp [Option.or]
        | none => simp [ih]

lemma lookupMethodInInterface_eq (g : Graph) (n d : String) :
    ∀ (fuel : Nat) (l : List ClassId),
      lookupMethodInInterface g n d fuel l = (ifaceDFSMethods g fuel l).find? (matchesND g n d) := by
  intro fuel
  induction fuel with
  | zero => intro l; rfl
  | succ fuel ih => intro l; exact lmiiStep_eq g n d _ _ ih l

lemma lookupMethod_eq (g : Graph) (n d : String) (fuel : Nat) (c : ClassId) :
    lookupMethod g n d fuel c = (methodSearchOrder g fuel c).find? (matchesND g n d) := by
  unfold lookupMethod methodSearchOrder
  rw [LookupMethodInClass_eq, List.find?_append, lookupMethodInInterface_eq]
  cases (classChainMethods g fuel c).find? (matchesND g n d) <;> simp [Option.or]

lemma resolveMethodRef_ok_method (g : Graph) (ref : MethodRef) (u : Unit) (r : MethodRef)
    (h : resolveMethodRef g ref = (Except.ok u, r)) : ∃ m, r.method = some m := by
  unfold resolveMethodRef at h
  cases hc : findClassByName g ref.className with
  | none => rw [hc] at h; simp at h
  | some c =>
    rw [hc] at h
    cases hi : isInterfaceAt g c with
    | true => simp [hi] at h
    | false =>
      simp only [hi, Bool.false_eq_true, if_false] at h
      cases hl : lookupMethod g ref.name ref.descriptor (fuelOf g) c with
      | none => rw [hl] at h; simp at h
      | some m =>
        rw [hl] at h
        cases ha : methodIsAccessibleTo g m ref.cpClass with
        | false => simp [ha] at h
        | true =>
          simp only [ha, if_true] at h
          have hr : r = { ref with method := some m } := by
            have := congrArg Prod.snd h
            simpa using this.symm
          exact ⟨m, by rw [hr]⟩

lemma resolveMethodRef_error_ref (g : Graph) (ref : MethodRef) (e : LinkErr) (r : MethodRef)
    (h : resolveMethodRef g ref = (Except.error e, r)) : r = ref := by
  unfold resolveMethodRef at h
  cases hc : findClassByName g ref.className with
  | none =>
    rw [hc] at h
    exact (congrArg Prod.snd h).symm
  | some c =>
    rw [hc] at h
    cases hi : isInterfaceAt g c with
    | true =>
      simp only [hi, if_true] at h
      exact (congrArg Prod.snd h).symm
    | false =>
      simp only [hi, Bool.false_eq_true, if_false] at h
      cases hl : lookupMethod g ref.name ref.descriptor (fuelOf g) c with
      | none =>
        rw [hl] at h
        exact (congrArg Prod.snd h).symm
      | some m =>
        rw [hl] at h
        cases ha : methodIsAccessibleTo g m ref.cpClass with
        | false =>
          simp only [ha, Bool.false_eq_true, if_false] at h
          exact (congrArg Prod.snd h).symm
        | true =>
          simp [ha] at h

lemma lastIndexOf_eq_none (ch : Char) : ∀ l : List Char, lastIndexOf ch l = none ↔ ch ∉ l := by
  intro l
  induction l with
  | nil => simp [lastIndexOf]
  | cons x xs ih =>
    simp only [lastIndexOf]
    cases hr : lastIndexOf ch xs with
    | some i =>
      have hmem : ch ∈ xs := by
        by_contra hn
        rw [(ih).mpr hn] at hr
        exact absurd hr (by simp)
      simp [List.mem_cons, hmem]
    | none =>
      have hx : ch ∉ xs := (ih).mp hr
      cases hxc : x == ch with
      | true =>
        have : x = ch := by simpa using hxc
        simp [this, List.mem_cons]
      | false =>
        have hxe : ¬(x = ch) := by simpa using hxc
        have hne : ¬(ch = x) := fun hh => hxe hh.symm
        simp [List.mem_cons, hx, hne]

lemma lastIndexOf_append (ch : Char) (s : List Char) (hs : ch ∉ s) :
    ∀ p : List Char, lastIndexOf ch (p ++ ch :: s) = some p.length := by
  intro p
  induction p with
  | nil =>
    simp only [List.nil_append, lastIndexOf, (lastIndexOf_eq_none ch s).mpr hs]
    simp
  | cons a p ih =>
    simp only [List.cons_append, lastIndexOf, List.append_eq, ih, List.length_cons]

lemma pkgOfName_no_slash (n : String) (h : '/' ∉ n.toList) : pkgOfName n = "" := by
  unfold pkgOfName
  rw [(lastIndexOf_eq_none _ _).mpr h]

lemma pkgOfName_split (n : String) (p s : List Char)
    (hn : n.toList = p ++ '/' :: s) (hs : '/' ∉ s) : pkgOfName n = String.mk p := by
  unfold pkgOfName
  rw [hn, lastIndexOf_append _ _ hs]
  show String.mk (List.take p.length (p ++ '/' :: s)) = String.mk p
  rw [List.take_left]

/- ----------------------------------------------------------------
   Claim theorems
   ---------------------------------------------------------------- -/

/-- C1: For a non-interface target class `c`, method reference resolution
searches `c` and its superclass chain first, then `c`'s direct interfaces
depth-first, each interface's own method table before its super-interfaces,
and returns the first (name, descriptor) match of that order; when no match
exists anywhere in that order, resolution fails with the no-such-method
condition. -/
theorem lookupMethod_search_order (g : Graph) (n d : String) (fuel : Nat) (c : ClassId) :
    lookupMethod g n d fuel c = (methodSearchOrder g fuel c).find? (matchesND g n d)
    ∧ (∀ ref : MethodRef,
        findClassByName g ref.className = some c →
        isInterfaceAt g c = false →
        (methodSearchOrder g (fuelOf g) c).find? (matchesND g ref.name ref.descriptor) = none →
        (resolveMethodRef g ref).1 = Except.error LinkErr.noSuchMethod) := by
  constructor
  · exact lookupMethod_eq g n d fuel c
  · intro ref hc hi hnone
    unfold resolveMethodRef
    rw [hc]
    simp only [hi, Bool.false_eq_true, if_false]
    rw [lookupMethod_eq, hnone]

/-- C1 witness: the search-order equation at a class implementing an
interface whose super-interface declares the method, and a no-such-method
failure for an absent signature. -/
theorem lookupMethod_search_order_witness :
    lookupMethod gKIJ "g" "()V" (fuelOf gKIJ) 0 =
      (methodSearchOrder gKIJ (fuelOf gKIJ) 0).find? (matchesND gKIJ "g" "()V")
    ∧ (resolveMethodRef gKIJ refNope).1 = Except.error LinkErr.noSuchMethod :=
  ⟨(lookupMethod_search_order gKIJ "g" "()V" (fuelOf gKIJ) 0).1,
   (lookupMethod_search_order gKIJ "g" "()V" (fuelOf gKIJ) 0).2 refNope rfl rfl rfl⟩

/-- C2: once a `ResolvedMethod` call has succeeded, every later call on the
resulting reference returns the identical resolved method, for every (even
mutated) class graph, without re-running resolution. -/
theorem resolvedMethod_cache_stable (g : Graph) (ref r : MethodRef) (om : Option MethodId)
    (h : ResolvedMethod g ref = (Except.ok om, r)) (g2 : Graph) :
    ResolvedMethod g2 r = (Except.ok om, r) := by
  unfold ResolvedMethod at h
  cases hm : ref.method with
  | some m0 =>
    rw [hm] at h
    simp only at h
    have h2 : r = ref := by
      have := congrArg Prod.snd h
      simpa using this.symm
    subst h2
    have h1 : om = some m0 := by
      have := congrArg Prod.fst h
      simpa using this.symm
    subst h1
    simp [ResolvedMethod, hm]
  | none =>
    rw [hm] at h
    cases hres : resolveMethodRef g ref with
    | mk er r2 =>
      rw [hres] at h
      cases er with
      | error e => simp at h
      | ok u =>
        simp only at h
        have h2 : r = r2 := by
          have := congrArg Prod.snd h
          simpa using this.symm
        subst h2
        have h1 : om = r.method := by
          have := congrArg Prod.fst h
          simpa using this.symm
        subst h1
        obtain ⟨m, hm2⟩ := resolveMethodRef_ok_method g ref u r hres
        simp [ResolvedMethod, hm2]

/-- C2 witness: `refF` resolves in `gCD` to method `(0, 0)`; the later call
made on the emptied graph `[]` still returns that very method. -/
theorem resolvedMethod_cache_stable_witness :
    ResolvedMethod [] refFres = (Except.ok (some (0, 0)), refFres) :=
  resolvedMethod_cache_stable gCD refF refFres (some (0, 0)) rfl []

/-- C3: a plain method reference whose target class name resolves to an
interface fails with the incompatible-class-change condition, whatever the
member name and descriptor are. -/
theorem resolveMethodRef_interface_target (g : Graph) (ref : MethodRef) (c : ClassId)
    (hc : findClassByName g ref.className = some c)
    (hi : isInterfaceAt g c = true) :
    resolveMethodRef g ref = (Except.error LinkErr.incompatibleClassChange, ref) := by
  unfold resolveMethodRef
  rw [hc]
  simp [hi]

/-- C3 witness: the interface `IF` does declare `f()V`, yet the plain
reference to `IF.f()V` still fails with incompatible-class-change. -/
theorem resolveMethodRef_interface_target_witness :
    resolveMethodRef gIF refIF = (Except.error LinkErr.incompatibleClassChange, refIF) :=
  resolveMethodRef_interface_target gIF refIF 0 rfl rfl

/-- C4: a failed resolution has no effect: the failing reference keeps its
cached method field, and a pool of references is left exactly as it was. -/
theorem resolveMethodRef_failure_frame (g : Graph) :
    (∀ (ref : MethodRef) (e : LinkErr),
        (resolveMethodRef g ref).1 = Except.error e → (resolveMethodRef g ref).2 = ref)
    ∧ (∀ (pool : List MethodRef) (i : Nat) (e : LinkErr),
        (poolResolveAt g pool i).1 = Except.error e → (poolResolveAt g pool i).2 = pool) := by
  have part1 : ∀ (ref : MethodRef) (e : LinkErr),
      (resolveMethodRef g ref).1 = Except.error e → (resolveMethodRef g ref).2 = ref := by
    intro ref e h
    cases hres : resolveMethodRef g ref with
    | mk er r =>
      rw [hres] at h
      simp only at h
      rw [h] at hres
      exact resolveMethodRef_error_ref g ref e r hres
  refine ⟨part1, ?_⟩
  intro pool i e h
  cases hp : pool[i]? with
  | none => simp [poolResolveAt, hp]
  | some ref =>
    simp only [poolResolveAt, hp] at h ⊢
    cases hres : resolveMethodRef g ref with
    | mk er r =>
      rw [hres] at h
      simp only at h
      rw [h] at hres
      have hr : r = ref := resolveMethodRef_error_ref g ref e r hres
      show pool.set i r = pool
      rw [hr]
      exact listSetSelf pool i ref hp

/-- C4 witness: a no-such-method failure leaves the reference and the pool
untouched. -/
theorem resolveMethodRef_failure_frame_witness :
    (resolveMethodRef gCD refAbsent).2 = refAbsent
    ∧ (poolResolveAt gCD [refAbsent] 0).2 = [refAbsent] :=
  ⟨(resolveMethodRef_failure_frame gCD).1 refAbsent LinkErr.noSuchMethod rfl,
   (resolveMethodRef_failure_frame gCD).2 [refAbsent] 0 LinkErr.noSuchMethod rfl⟩

/-- C5: for a class whose superclass chain terminates, `IsSubClassOf`
returns true exactly when the other class appears, by identity, in the
strict superclass chain; in particular a class not in its own chain is not
a subclass of itself. -/
theorem isSubClassOf_strict_ancestor (g : Graph) (c d : ClassId) (h : ChainTerminates g c) :
    (IsSubClassOf g c d = true ↔ StrictAncestor g c d)
    ∧ (¬ StrictAncestor g c c → IsSubClassOf g c c = false) := by
  have main : ∀ e : ClassId, IsSubClassOf g c e = true ↔ StrictAncestor g c e := by
    intro e
    unfold IsSubClassOf StrictAncestor
    rw [isSubLoop_iff]
    constructor
    · rintro ⟨j, hj, hs⟩
      exact ⟨j + 1, by omega, hs⟩
    · rintro ⟨k, hk1, hks⟩
      obtain ⟨t, ht, htn⟩ := h
      have hkt : k < t := by
        by_contra hge
        push_neg at hge
        have hnone : sIter g k (some c) = none := by
          have hsplit : k = (k - t) + t := by omega
          rw [hsplit, sIter_add, htn, sIter_none]
        rw [hnone] at hks
        exact absurd hks (by simp)
      cases k with
      | zero => omega
      | succ j => exact ⟨j, by omega, hks⟩
  exact ⟨main d, fun hn => by
    cases hv : IsSubClassOf g c c with
    | false => rfl
    | true => exact absurd ((main c).mp hv) hn⟩

/-- C5 witness: in `gAB` (`B extends A`, root `A`), `B.IsSubClassOf(A)`
agrees with strict ancestry, and `B` is not a subclass of itself. -/
theorem isSubClassOf_strict_ancestor_witness :
    (IsSubClassOf gAB 1 0 = true ↔ StrictAncestor gAB 1 0)
    ∧ (¬ StrictAncestor gAB 1 1 → IsSubClassOf gAB 1 1 = false) :=
  isSubClassOf_strict_ancestor gAB 1 0 ⟨2, by decide, rfl⟩

/-- C6: class accessibility is public-or-same-package, where the package
name is the name prefix up to (excluding) the last slash, empty for a
slash-free name; hence two slash-free non-public classes are mutually
accessible. -/
theorem isAccessibleTo_spec :
    (∀ a b : ClassData,
        a.isAccessibleTo b = true ↔ (a.IsPublic = true ∨ a.GetPackageName = b.GetPackageName))
    ∧ (∀ a : ClassData, '/' ∉ a.name.toList → a.GetPackageName = "")
    ∧ (∀ (a : ClassData) (p s : List Char),
        a.name.toList = p ++ '/' :: s → '/' ∉ s → a.GetPackageName = String.mk p)
    ∧ (∀ a b : ClassData, '/' ∉ a.name.toList → '/' ∉ b.name.toList →
        a.isAccessibleTo b = true ∧ b.isAccessibleTo a = true) := by
  have hiff : ∀ a b : ClassData,
      a.isAccessibleTo b = true ↔ (a.IsPublic = true ∨ a.GetPackageName = b.GetPackageName) := by
    intro a b
    unfold ClassData.isAccessibleTo
    simp [Bool.or_eq_true, beq_iff_eq]
  refine ⟨hiff, ?_, ?_, ?_⟩
  · intro a h
    exact pkgOfName_no_slash a.name h
  · intro a p s hn hs
    exact pkgOfName_split a.name p s hn hs
  · intro a b ha hb
    have h1 : a.GetPackageName = "" := pkgOfName_no_slash a.name ha
    have h2 : b.GetPackageName = "" := pkgOfName_no_slash b.name hb
    exact ⟨(hiff a b).mpr (Or.inr (by rw [h1, h2])),
           (hiff b a).mpr (Or.inr (by rw [h1, h2]))⟩

/-- C6 witness: the slash-free non-public classes `A` and `B` are mutually
accessible. -/
theorem isAccessibleTo_spec_witness :
    clsA.isAccessibleTo clsB = true ∧ clsB.isAccessibleTo clsA = true :=
  isAccessibleTo_spec.2.2.2 clsA clsB (by decide) (by decide)

/-- C7: `GetInstanceMethod` returns the first method of the
self-then-ancestors walk matching name, descriptor and non-static-ness
(static methods with matching signature are skipped), and `none` when the
whole chain has no match. -/
theorem getInstanceMethod_first_nonstatic_match (g : Graph) (c : ClassId) (n d : String) :
    GetInstanceMethod g c n d =
      (classChainMethods g (fuelOf g) c).find?
        (fun m => !(mIsStatic g m) && matchesND g n d m) := by
  unfold GetInstanceMethod
  rw [getMethod_eq]
  congr 1
  funext m
  cases mIsStatic g m <;> rfl

/-- C8: when a matching static field exists somewhere in the superclass
chain, the field search cannot come back empty, so `GetRefVar` and
`SetRefVar` never hit the nil-dereference failure: they read and write the
located field's storage slot. -/
theorem getRefVar_setRefVar_total (g : Graph) (c : ClassId) (n d : String)
    (h : ∃ f ∈ chainFields g (fuelOf g) c, fieldMatches true n d f = true) :
    ∃ f, getField g n d true (fuelOf g) c = some f ∧ fieldMatches true n d f = true
      ∧ GetRefVar g c n d = some (slotGetRef (staticVarsOf g c) f.slotId)
      ∧ ∀ r, ∃ g2, SetRefVar g c n d r = some g2 := by
  have hsome : ((chainFields g (fuelOf g) c).find? (fieldMatches true n d)).isSome :=
    List.find?_isSome.mpr h
  obtain ⟨f, hf⟩ := Option.isSome_iff_exists.mp hsome
  have hgf : getField g n d true (fuelOf g) c = some f := by
    rw [getField_eq]
    exact hf
  have hmatch : fieldMatches true n d f = true := List.find?_some hf
  obtain ⟨f0, hmem, _⟩ := h
  have hcc : ∃ cd, classAt g c = some cd := by
    have hfuel : fuelOf g = (g.length + 1) + 1 := rfl
    rw [hfuel] at hmem
    cases hca : classAt g c with
    | some cd => exact ⟨cd, rfl⟩
    | none =>
      simp [chainFields, hca] at hmem
  obtain ⟨cd, hcd⟩ := hcc
  refine ⟨f, hgf, hmatch, ?_, ?_⟩
  · unfold GetRefVar
    rw [hgf]
  · intro r
    refine ⟨g.set c { cd with staticVars := cd.staticVars.set f.slotId r }, ?_⟩
    unfold SetRefVar
    rw [hcd, hgf]

/-- C8 witness: class `Sup` declares the static field `x:I`, so its
accessors succeed. -/
theorem getRefVar_setRefVar_total_witness :
    ∃ f, getField gSS "x" "I" true (fuelOf gSS) 0 = some f ∧ fieldMatches true "x" "I" f = true
      ∧ GetRefVar gSS 0 "x" "I" = some (slotGetRef (staticVarsOf gSS 0) f.slotId)
      ∧ ∀ r, ∃ g2, SetRefVar gSS 0 "x" "I" r = some g2 :=
  getRefVar_setRefVar_total gSS 0 "x" "I" ⟨fX, by decide, by decide⟩

/-- C9: `SetRefVar` on class `c` writes exactly the located field's slot of
`c`'s own static storage — every other class is untouched, every other slot
of `c` is untouched — even when the field was found on an ancestor; and
`GetRefVar` reads from `c`'s own static storage. -/
theorem setRefVar_frame (g : Graph) (c : ClassId) (n d : String) (r : Option Obj)
    (cd : ClassData) (f : FieldData)
    (hc : classAt g c = some cd)
    (hf : getField g n d true (fuelOf g) c = some f) :
    SetRefVar g c n d r = some (g.set c { cd with staticVars := cd.staticVars.set f.slotId r })
    ∧ (∀ c2, c2 ≠ c →
        (g.set c { cd with staticVars := cd.staticVars.set f.slotId r })[c2]? = g[c2]?)
    ∧ (∀ j, j ≠ f.slotId → (cd.staticVars.set f.slotId r)[j]? = cd.staticVars[j]?)
    ∧ GetRefVar g c n d = some (slotGetRef cd.staticVars f.slotId) := by
  refine ⟨?_, ?_, ?_, ?_⟩
  · unfold SetRefVar
    rw [hc, hf]
  · intro c2 hne
    exact List.getElem?_set_ne (Ne.symm hne)
  · intro j hne
    exact List.getElem?_set_ne (Ne.symm hne)
  · unfold GetRefVar
    rw [hf]
    unfold staticVarsOf
    rw [hc]

/-- C9 witness: the static field `x` is declared on the ancestor `Sup`, yet
`SetRefVar` on `Sub` writes slot 0 of `Sub`'s own storage and changes
nothing else. -/
theorem setRefVar_frame_witness :
    SetRefVar gSS 1 "x" "I" (some 3) =
      some (gSS.set 1 { clsSub with staticVars := clsSub.staticVars.set fX.slotId (some 3) })
    ∧ (∀ c2, c2 ≠ 1 →
        (gSS.set 1 { clsSub with staticVars := clsSub.staticVars.set fX.slotId (some 3) })[c2]? =
          gSS[c2]?)
    ∧ (∀ j, j ≠ fX.slotId → (clsSub.staticVars.set fX.slotId (some 3))[j]? = clsSub.staticVars[j]?)
    ∧ GetRefVar gSS 1 "x" "I" = some (slotGetRef clsSub.staticVars fX.slotId) :=
  setRefVar_frame gSS 1 "x" "I" (some 3) clsSub fX rfl rfl

/-- C10: `GetMainMethod` and `GetClinitMethod` look only at the receiving
class's own method table: whenever that table has no matching static
method, both return `none`, whatever the ancestors declare. -/
theorem getStaticMethod_own_table (g : Graph) (c : ClassId)
    (h1 : ∀ m ∈ methodIds g c,
        ¬(mIsStatic g m = true ∧ matchesND g "main" "([Ljava/lang/String;)V" m = true))
    (h2 : ∀ m ∈ methodIds g c,
        ¬(mIsStatic g m = true ∧ matchesND g "<clinit>" "()V" m = true)) :
    GetMainMethod g c = none ∧ GetClinitMethod g c = none := by
  constructor
  · unfold GetMainMethod getStaticMethod
    apply List.find?_eq_none.mpr
    intro m hm hp
    rw [Bool.and_eq_true] at hp
    exact h1 m hm ⟨hp.1, hp.2⟩
  · unfold GetClinitMethod getStaticMethod
    apply List.find?_eq_none.mpr
    intro m hm hp
    rw [Bool.and_eq_true] at hp
    exact h2 m hm ⟨hp.1, hp.2⟩

/-- C10 witness: `Der`'s own table is empty so both lookups return `none`,
although the ancestor `Base` declares `static main` — which the
chain-walking `getMethod` does find. -/
theorem getStaticMethod_own_table_witness :
    (GetMainMethod gMain 1 = none ∧ GetClinitMethod gMain 1 = none)
    ∧ getMethod gMain "main" "([Ljava/lang/String;)V" true (fuelOf gMain) 1 = some (0, 0) :=
  ⟨getStaticMethod_own_table gMain 1 (by decide) (by decide), by decide⟩

end heap
